import Mathlib

/-!
# Verification of the contamination-detection core of mmeval-lab

This file gives a shallow embedding, in Lean 4, of the contamination-detection
engine of the repository (the modules `mmevallab/contamination/fingerprint.py`,
`minhash.py`, `manifest.py` and `scanner.py`), and proves or refutes the frozen
claims about it.

Modelling conventions:
* Python `dict`s are association lists in insertion order; `dict.get(k, d)`
  is a lookup with default, `dict.setdefault(k, []).append(v)` is an
  append-into-bucket operation, and `d[k] = v` replaces in place or appends.
* Python `set`s are duplicate-free lists.  CPython leaves set/dict iteration
  order unspecified; the embedding fixes first-insertion order.  All proved
  properties are independent of that order (it can only permute ties).
* `hashlib.sha256` and `hashlib.md5` are implemented directly over UTF-8 byte
  lists, with 32-bit words represented as `Nat` reduced modulo `2 ^ 32`.
* Floating-point similarity scores are modelled as exact rationals.
* Text handling (`str.lower`, the `\s` and `\w` regex classes) is embedded on
  its ASCII fragment, where Python and the embedding agree character for
  character; `unicodedata.normalize("NFKC", ·)` is the identity on ASCII and
  is embedded as the identity.
* Methods that Python could mutate are state transformers: a query returns its
  result together with the (possibly updated) index state.
* Exceptions are `Except String` values.
-/

/-! ## 32-bit arithmetic helpers -/

/-- `2 ^ 32`, the modulus for 32-bit words. -/
def M32 : Nat := 4294967296

/-- 32-bit addition. -/
def add32 (a b : Nat) : Nat := (a + b) % M32

/-- 32-bit right rotation of `x` by `n` (for `n ≤ 32`). -/
def rotr32 (x n : Nat) : Nat := (x / 2 ^ n + x % 2 ^ n * 2 ^ (32 - n)) % M32

/-- 32-bit left rotation of `x` by `n` (for `n ≤ 32`). -/
def rotl32 (x n : Nat) : Nat := (x % 2 ^ (32 - n) * 2 ^ n + x / 2 ^ (32 - n)) % M32

/-- Logical right shift. -/
def shr32 (x n : Nat) : Nat := x / 2 ^ n

/-- 32-bit bitwise complement (for `x < 2 ^ 32`). -/
def not32 (x : Nat) : Nat := M32 - 1 - x

/-! ## UTF-8 encoding

`str.encode()` / `str.encode("utf-8")` in the source; bytes are `Nat < 256`. -/

/-- UTF-8 encoding of a single code point. -/
def utf8EncodeChar (c : Char) : List Nat :=
  let n := c.toNat
  if n < 128 then [n]
  else if n < 2048 then [192 + n / 64, 128 + n % 64]
  else if n < 65536 then [224 + n / 4096, 128 + n / 64 % 64, 128 + n % 64]
  else [240 + n / 262144, 128 + n / 4096 % 64, 128 + n / 64 % 64, 128 + n % 64]

/-- UTF-8 bytes of a string (Python `text.encode()`). -/
def strBytes (s : String) : List Nat := (s.data.map utf8EncodeChar).flatten

/-! ## Generic list chunking (fuel-based, structurally recursive) -/

/-- Split `l` into consecutive chunks of size `k`; `fuel` bounds the recursion. -/
def chunksOfAux (k : Nat) : Nat → List Nat → List (List Nat)
  | 0, _ => []
  | _, [] => []
  | fuel + 1, l => l.take k :: chunksOfAux k fuel (l.drop k)

/-- Split `l` into consecutive chunks of size `k` (last chunk may be short). -/
def chunksOf (k : Nat) (l : List Nat) : List (List Nat) := chunksOfAux k l.length l

/-- `k`-byte big-endian encoding of `v`. -/
def natToBytesBE (v k : Nat) : List Nat :=
  (List.range k).map (fun i => v / 2 ^ (8 * (k - 1 - i)) % 256)

/-- `k`-byte little-endian encoding of `v`. -/
def natToBytesLE (v k : Nat) : List Nat :=
  (List.range k).map (fun i => v / 2 ^ (8 * i) % 256)

/-- Big-endian word from a list of bytes. -/
def bytesToNatBE (l : List Nat) : Nat := l.foldl (fun a b => a * 256 + b) 0

/-- Little-endian word from a list of bytes. -/
def bytesToNatLE (l : List Nat) : Nat := l.foldr (fun b a => a * 256 + b) 0

/-- One lowercase hex digit. -/
def hexDigit (n : Nat) : Char := if n < 10 then Char.ofNat (48 + n) else Char.ofNat (87 + n)

/-- Lowercase hex rendering of a 32-bit word (8 digits). -/
def wordToHex (w : Nat) : List Char := (List.range 8).map (fun i => hexDigit (w / 16 ^ (7 - i) % 16))

/-- Lowercase hex rendering of a byte (2 digits). -/
def byteToHex (b : Nat) : List Char := [hexDigit (b / 16), hexDigit (b % 16)]

/-! ## SHA-256 (`hashlib.sha256`) -/

/-- The SHA-256 round constants (fractional parts of cube roots of the first
64 primes). -/
def shaK : List Nat :=
  [1116352408, 1899447441, 3049323471, 3921009573, 961987163, 1508970993,
   2453635748, 2870763221, 3624381080, 310598401, 607225278, 1426881987,
   1925078388, 2162078206, 2614888103, 3248222580, 3835390401, 4022224774,
   264347078, 604807628, 770255983, 1249150122, 1555081692, 1996064986,
   2554220882, 2821834349, 2952996808, 3210313671, 3336571891, 3584528711,
   113926993, 338241895, 666307205, 773529912, 1294757372, 1396182291,
   1695183700, 1986661051, 2177026350, 2456956037, 2730485921, 2820302411,
   3259730800, 3345764771, 3516065817, 3600352804, 4094571909, 275423344,
   430227734, 506948616, 659060556, 883997877, 958139571, 1322822218,
   1537002063, 1747873779, 1955562222, 2024104815, 2227730452, 2361852424,
   2428436474, 2756734187, 3204031479, 3329325298]

/-- The SHA-256 initial hash value. -/
def shaH0 : List Nat :=
  [1779033703, 3144134277, 1013904242, 2773480762,
   1359893119, 2600822924, 528734635, 1541459225]

/-- SHA-256 padding: append `0x80`, zero bytes to 56 mod 64, then the
message bit length as 8 big-endian bytes. -/
def shaPad (msg : List Nat) : List Nat :=
  let len := msg.length
  let zeros := (56 + 64 - (len + 1) % 64) % 64
  msg ++ [128] ++ List.replicate zeros 0 ++ natToBytesBE (len * 8) 8

/-- Extend a 16-word block by one scheduled word. -/
def shaExtendStep (w : List Nat) : List Nat :=
  let n := w.length
  let x15 := w.getD (n - 15) 0
  let x2 := w.getD (n - 2) 0
  let s0 := Nat.xor (Nat.xor (rotr32 x15 7) (rotr32 x15 18)) (shr32 x15 3)
  let s1 := Nat.xor (Nat.xor (rotr32 x2 17) (rotr32 x2 19)) (shr32 x2 10)
  w ++ [add32 (add32 (w.getD (n - 16) 0) s0) (add32 (w.getD (n - 7) 0) s1)]

/-- The 64-word message schedule of one block. -/
def shaSchedule (block : List Nat) : List Nat :=
  (List.range 48).foldl (fun w _ => shaExtendStep w) ((chunksOf 4 block).map bytesToNatBE)

/-- One SHA-256 compression round; the state is the 8-word working vector. -/
def shaRound (st : List Nat) (kw : Nat × Nat) : List Nat :=
  match st with
  | [a, b, c, d, e, f, g, h] =>
    let s1 := Nat.xor (Nat.xor (rotr32 e 6) (rotr32 e 11)) (rotr32 e 25)
    let ch := Nat.xor (Nat.land e f) (Nat.land (not32 e) g)
    let t1 := add32 h (add32 s1 (add32 ch (add32 kw.1 kw.2)))
    let s0 := Nat.xor (Nat.xor (rotr32 a 2) (rotr32 a 13)) (rotr32 a 22)
    let mj := Nat.xor (Nat.xor (Nat.land a b) (Nat.land a c)) (Nat.land b c)
    let t2 := add32 s0 mj
    [add32 t1 t2, a, b, c, add32 d t1, e, f, g]
  | other => other

/-- Compress one 64-byte block into the running hash value. -/
def shaCompress (hv : List Nat) (block : List Nat) : List Nat :=
  let w := shaSchedule block
  let st := (shaK.zip w).foldl shaRound hv
  (hv.zip st).map (fun p => add32 p.1 p.2)

/-- The eight 32-bit words of the SHA-256 digest of a byte list. -/
def sha256Words (msg : List Nat) : List Nat :=
  (chunksOf 64 (shaPad msg)).foldl shaCompress shaH0

/-- `hashlib.sha256(msg).hexdigest()`. -/
def sha256hex (msg : List Nat) : String :=
  String.mk ((sha256Words msg).map wordToHex).flatten

/-! ## MD5 (`hashlib.md5`) -/

/-- The MD5 sine-derived round constants. -/
def md5K : List Nat :=
  [3614090360, 3905402710, 606105819, 3250441966, 4118548399, 1200080426,
   2821735955, 4249261313, 1770035416, 2336552879, 4294925233, 2304563134,
   1804603682, 4254626195, 2792965006, 1236535329, 4129170786, 3225465664,
   643717713, 3921069994, 3593408605, 38016083, 3634488961, 3889429448,
   568446438, 3275163606, 4107603335, 1163531501, 2850285829, 4243563512,
   1735328473, 2368359562, 4294588738, 2272392833, 1839030562, 4259657740,
   2763975236, 1272893353, 4139469664, 3200236656, 681279174, 3936430074,
   3572445317, 76029189, 3654602809, 3873151461, 530742520, 3299628645,
   4096336452, 1126891415, 2878612391, 4237533241, 1700485571, 2399980690,
   4293915773, 2240044497, 1873313359, 4264355552, 2734768916, 1309151649,
   4149444226, 3174756917, 718787259, 3951481745]

/-- The MD5 per-round left-rotation amounts. -/
def md5S : List Nat :=
  [7, 12, 17, 22, 7, 12, 17, 22, 7, 12, 17, 22, 7, 12, 17, 22,
   5, 9, 14, 20, 5, 9, 14, 20, 5, 9, 14, 20, 5, 9, 14, 20,
   4, 11, 16, 23, 4, 11, 16, 23, 4, 11, 16, 23, 4, 11, 16, 23,
   6, 10, 15, 21, 6, 10, 15, 21, 6, 10, 15, 21, 6, 10, 15, 21]

/-- MD5 padding: append `0x80`, zero bytes to 56 mod 64, then the message bit
length as 8 little-endian bytes. -/
def md5Pad (msg : List Nat) : List Nat :=
  let len := msg.length
  let zeros := (56 + 64 - (len + 1) % 64) % 64
  msg ++ [128] ++ List.replicate zeros 0 ++ natToBytesLE (len * 8) 8

/-- One MD5 operation.  The state is `[a, b, c, d]`; `m` is the 16-word block
and `i` the operation index. -/
def md5Op (m : List Nat) (st : List Nat) (i : Nat) : List Nat :=
  match st with
  | [a, b, c, d] =>
    let fg : Nat × Nat :=
      if i < 16 then (Nat.lor (Nat.land b c) (Nat.land (not32 b) d), i)
      else if i < 32 then (Nat.lor (Nat.land d b) (Nat.land (not32 d) c), (5 * i + 1) % 16)
      else if i < 48 then (Nat.xor (Nat.xor b c) d, (3 * i + 5) % 16)
      else (Nat.xor c (Nat.lor b (not32 d)), 7 * i % 16)
    let t := add32 fg.1 (add32 a (add32 (md5K.getD i 0) (m.getD fg.2 0)))
    [d, add32 b (rotl32 t (md5S.getD i 0)), b, c]
  | other => other

/-- Compress one 64-byte block into the running MD5 state. -/
def md5Compress (st : List Nat) (block : List Nat) : List Nat :=
  let m := (chunksOf 4 block).map bytesToNatLE
  let res := (List.range 64).foldl (md5Op m) st
  (st.zip res).map (fun p => add32 p.1 p.2)

/-- The 16 digest bytes of the MD5 of a byte list. -/
def md5Bytes (msg : List Nat) : List Nat :=
  ((chunksOf 64 (md5Pad msg)).foldl md5Compress
      [1732584193, 4023233417, 2562383102, 271733878]).flatMap (fun w => natToBytesLE w 4)

/-- `int(hashlib.md5(msg).hexdigest(), 16)`: the digest read as one
big-endian 128-bit integer. -/
def md5Int (msg : List Nat) : Nat := bytesToNatBE (md5Bytes msg)

/-! ## Dictionary and set helpers

Python `dict`s are association lists in insertion order, Python `set`s are
duplicate-free lists. -/

/-- `m.get(k)` / `m[k]` lookup on an association list. -/
def dget {κ β : Type} [DecidableEq κ] (m : List (κ × β)) (k : κ) : Option β :=
  match m with
  | [] => none
  | (k', v) :: rest => if k' = k then some v else dget rest k

/-- `m.setdefault(k, []).append(v)`: append `v` to the bucket of `k`,
creating the bucket if absent. -/
def dsetAppend {κ β : Type} [DecidableEq κ] (m : List (κ × List β)) (k : κ) (v : β) :
    List (κ × List β) :=
  match m with
  | [] => [(k, [v])]
  | (k', vs) :: rest =>
    if k' = k then (k', vs ++ [v]) :: rest else (k', vs) :: dsetAppend rest k v

/-- `m[k] = v`: replace the value of `k`, or append the binding if absent. -/
def dset {κ β : Type} [DecidableEq κ] (m : List (κ × β)) (k : κ) (v : β) : List (κ × β) :=
  match m with
  | [] => [(k, v)]
  | (k', v') :: rest => if k' = k then (k', v) :: rest else (k', v') :: dset rest k v

/-- `s.add(a)` on a set modelled as a duplicate-free list. -/
def insertIfAbsent {α : Type} [DecidableEq α] (l : List α) (a : α) : List α :=
  if a ∈ l then l else l ++ [a]

/-- A list folded into a set: first occurrences, in order. -/
def dedupList {α : Type} [DecidableEq α] (l : List α) : List α :=
  l.foldl insertIfAbsent []

/-! ## `fingerprint.py`: text normalization

`normalize_text` lowercases, NFKC-normalizes, collapses whitespace runs to a
single space and trims (`re.sub(r"\s+", " ", text).strip()`, which equals
`" ".join(text.split())`), and strips every character that is neither a word
character nor whitespace (`re.sub(r"[^\w\s]", "", text)`).

The embedding covers the ASCII fragment: `str.lower` is `Char.toLower`
(identical on ASCII), NFKC is the identity on ASCII and is embedded as the
identity, `\s` is the six ASCII whitespace characters, and `\w` is
alphanumeric-or-underscore. -/

/-- Python's `\s` class, on ASCII. -/
def pyIsSpace (c : Char) : Bool :=
  c = ' ' || c = '\t' || c = '\n' || c = '\r' || c = '\x0b' || c = '\x0c'

/-- Python's `\w` class, on ASCII. -/
def isWordChar (c : Char) : Bool := c.isAlphanum || c = '_'

/-- `str.split()`: maximal runs of non-whitespace characters, in order.
`acc` is the reversed current word. -/
def splitWordsAux : List Char → List Char → List (List Char)
  | [], acc => if acc.isEmpty then [] else [acc.reverse]
  | c :: cs, acc =>
    if pyIsSpace c then
      if acc.isEmpty then splitWordsAux cs [] else acc.reverse :: splitWordsAux cs []
    else splitWordsAux cs (c :: acc)

/-- `str.split()` on a character list. -/
def splitWords (l : List Char) : List (List Char) := splitWordsAux l []

/-- `" ".join(ws)` on character-list words. -/
def joinSpace : List (List Char) → List Char
  | [] => []
  | [w] => w
  | w :: v :: ws => w ++ ' ' :: joinSpace (v :: ws)

/-- `re.sub(r"\s+", " ", l).strip()`, computed as `" ".join(l.split())`. -/
def collapseStrip (l : List Char) : List Char := joinSpace (splitWords l)

/-- `re.sub(r"[^\w\s]", "", l)`: keep word characters and whitespace. -/
def stripPunct (l : List Char) : List Char := l.filter (fun c => isWordChar c || pyIsSpace c)

/-- `normalize_text`: lowercase, NFKC (identity on the embedded ASCII
fragment), collapse-and-trim whitespace, strip punctuation. -/
def normalize_text (s : String) : String :=
  String.mk (stripPunct (collapseStrip (s.data.map Char.toLower)))

/-- `compute_text_hash(text, normalize)`: SHA-256 hex digest of the UTF-8
bytes of the (optionally normalized) text. -/
def compute_text_hash (text : String) (norm : Bool) : String :=
  sha256hex (strBytes (if norm then normalize_text text else text))

/-- `compute_ngram_hashes(text, n, normalize)`: the set of 16-hex-character
truncated SHA-256 digests of the word `n`-grams of the text; a text with
fewer than `n` words falls back to the singleton of its full-length hash.
`List.range (len + 1 - n)` is Python's `range(len(words) - n + 1)` (empty
when the subtraction is negative). -/
def compute_ngram_hashes (text : String) (n : Nat) (norm : Bool) : List String :=
  let t := if norm then normalize_text text else text
  let ws := splitWords t.data
  if ws.length < n then [compute_text_hash t false]
  else
    dedupList ((List.range (ws.length + 1 - n)).map (fun i =>
      (sha256hex (strBytes (String.mk (joinSpace ((ws.drop i).take n))))).take 16))

/-! ## `fingerprint.py`: `TextFingerprintIndex` -/

/-- The exact / n-gram fingerprint index: `_exact` maps a full text hash to
the sample ids sharing it, `_ngrams` maps an n-gram hash to the sample ids
containing that n-gram. -/
structure TextFingerprintIndex where
  exact : List (String × List String)
  ngrams : List (String × List String)
deriving DecidableEq

/-- `TextFingerprintIndex()`. -/
def TextFingerprintIndex.empty : TextFingerprintIndex := ⟨[], []⟩

/-- `add(sample_id, text)`: append the sample to the exact bucket of the text
hash and to the bucket of every n-gram hash. -/
def TextFingerprintIndex.add (idx : TextFingerprintIndex) (sample_id text : String) :
    TextFingerprintIndex :=
  { exact := dsetAppend idx.exact (compute_text_hash text true) sample_id
    ngrams := (compute_ngram_hashes text 5 true).foldl
      (fun m h => dsetAppend m h sample_id) idx.ngrams }

/-- `find_exact(text)`: look up the bucket of the text hash, defaulting to the
empty list.  As a state transformer: the method writes no field, so the
returned state is the receiver. -/
def TextFingerprintIndex.find_exact (idx : TextFingerprintIndex) (text : String) :
    List String × TextFingerprintIndex :=
  ((dget idx.exact (compute_text_hash text true)).getD [], idx)

/-- Insert into a descending-similarity-sorted list, after every entry of
greater or equal similarity (so the sort below is stable). -/
def insertBySimDesc (p : String × ℚ) : List (String × ℚ) → List (String × ℚ)
  | [] => [p]
  | q :: qs => if q.2 ≤ p.2 then p :: q :: qs else q :: insertBySimDesc p qs

/-- `sorted(results, key=lambda x: -x[1])`: stable sort by descending
similarity, embedded as a structurally recursive insertion sort.  Tie order
matches the embedding's first-insertion order; Python leaves it unspecified
through set/dict iteration order. -/
def sortBySimDesc (l : List (String × ℚ)) : List (String × ℚ) :=
  l.foldr insertBySimDesc []

/-- `find_near(text, threshold)`: count, per sample, how many of the query's
n-gram hashes hit that sample's buckets; score by `count / |query n-grams|`;
keep scores `≥ threshold`; sort by descending similarity.  As a state
transformer: the method writes no field, so the returned state is the
receiver. -/
def TextFingerprintIndex.find_near (idx : TextFingerprintIndex) (text : String)
    (threshold : ℚ) : List (String × ℚ) × TextFingerprintIndex :=
  let query := compute_ngram_hashes text 5 true
  if query = [] then ([], idx)
  else
    let tally : List (String × Nat) := query.foldl
      (fun m h => ((dget idx.ngrams h).getD []).foldl
        (fun m' sid =>
          match dget m' sid with
          | some c => dset m' sid (c + 1)
          | none => m' ++ [(sid, 1)]) m) []
    let results := tally.filterMap (fun p =>
      if threshold ≤ (p.2 : ℚ) / (query.length : ℚ) then
        some (p.1, (p.2 : ℚ) / (query.length : ℚ))
      else none)
    (sortBySimDesc results, idx)

/-- `len(index)`: the number of distinct exact-hash buckets. -/
def TextFingerprintIndex.size (idx : TextFingerprintIndex) : Nat := idx.exact.length

/-! ## `minhash.py`: shingles, MinHash, LSH -/

/-- `_shingle(text, k)`: lowercase, collapse whitespace
(`re.sub(r"\s+", " ", text.lower().strip())`, embedded through the word
split), then yield every window of `k` consecutive words.
`List.range (len + 1 - k)` is Python's `range(len(words) - k + 1)`, which is
empty when `len(words) < k`. -/
def shingleList (text : String) (k : Nat) : List String :=
  let ws := splitWords (text.data.map Char.toLower)
  (List.range (ws.length + 1 - k)).map (fun i => String.mk (joinSpace ((ws.drop i).take k)))

/-- `_hash_shingle(shingle, seed)`: the MD5 digest of `f"{seed}:{shingle}"`
read as a 128-bit integer. -/
def hash_shingle (shingle : String) (seed : Nat) : Nat :=
  md5Int (strBytes (toString seed ++ ":" ++ shingle))

/-- A MinHash signature: the configured number of hash functions and the
computed signature. -/
structure MinHash where
  num_hashes : Nat
  signature : List Nat
deriving DecidableEq

/-- `MinHash(num_hashes).compute(text, shingle_size)`: the set of shingles, or
the all-zeros sentinel signature when it is empty; otherwise, for each seed,
the minimum seeded shingle hash. -/
def MinHash.compute (num_hashes : Nat) (text : String) (shingle_size : Nat) : MinHash :=
  let shingles := dedupList (shingleList text shingle_size)
  match shingles with
  | [] => ⟨num_hashes, List.replicate num_hashes 0⟩
  | s :: ss =>
    ⟨num_hashes, (List.range num_hashes).map (fun seed =>
      ss.foldl (fun acc x => Nat.min acc (hash_shingle x seed)) (hash_shingle s seed))⟩

/-- `jaccard(other)`: the fraction of signature positions that agree.
Python raises `ValueError` on a length mismatch and `ZeroDivisionError` on
empty signatures; both are `Except.error` here. -/
def MinHash.jaccard (a b : MinHash) : Except String ℚ :=
  if a.signature.length ≠ b.signature.length then
    Except.error "Signatures must have same length"
  else if a.signature.length = 0 then Except.error "division by zero"
  else
    Except.ok
      (((a.signature.zip b.signature).countP (fun p => p.1 = p.2) : ℚ) /
        (a.signature.length : ℚ))

/-- A model of CPython's `hash` on a tuple of ints, used only as the LSH
bucket key.  The properties proved here rely only on equal tuples receiving
equal keys, which any function satisfies. -/
def pyTupleHash (l : List Nat) : Nat :=
  l.foldl (fun acc x => (acc * 1000003 + x + 97531) % 2 ^ 61) 3430008

/-- The LSH index: per-band bucket dictionaries plus the stored signatures. -/
structure LSHIndex where
  num_bands : Nat
  rows_per_band : Nat
  buckets : List (List (Nat × List String))
  signatures : List (String × MinHash)
deriving DecidableEq

/-- `LSHIndex(num_bands, rows_per_band)`: stores the two numbers as given and
creates one empty bucket dictionary per band.  The constructor takes no
signature length and performs no validation. -/
def LSHIndex.init (num_bands rows_per_band : Nat) : LSHIndex :=
  ⟨num_bands, rows_per_band, List.replicate num_bands [], []⟩

/-- The signature slice of one band: `signature[band*r : band*r + r]`. -/
def LSHIndex.bandSlice (idx : LSHIndex) (mh : MinHash) (band_idx : Nat) : List Nat :=
  (mh.signature.drop (band_idx * idx.rows_per_band)).take idx.rows_per_band

/-- `add(doc_id, minhash)`: store the signature and append the document to one
bucket per band, keyed by the hash of the band's slice.  `self._buckets[i]`
is embedded as `buckets.getD i []`; `init` and `add` keep
`buckets.length = num_bands`, so the lookup is always in range. -/
def LSHIndex.add (idx : LSHIndex) (doc_id : String) (mh : MinHash) : LSHIndex :=
  { idx with
    signatures := dset idx.signatures doc_id mh
    buckets := (List.range idx.num_bands).map (fun band_idx =>
      dsetAppend (idx.buckets.getD band_idx []) (pyTupleHash (idx.bandSlice mh band_idx))
        doc_id) }

/-- `query(minhash, threshold)`: take the union of the buckets the query's
band slices hash into, score every candidate with the Jaccard estimator
against its stored signature, keep scores `≥ threshold` and sort descending.
A missing stored signature (Python `KeyError`) and a signature-length
mismatch (Python `ValueError`) are `Except.error`. -/
def LSHIndex.query (idx : LSHIndex) (mh : MinHash) (threshold : ℚ) :
    Except String (List (String × ℚ)) := do
  let candidates := (List.range idx.num_bands).foldl
    (fun cs band_idx =>
      match dget (idx.buckets.getD band_idx []) (pyTupleHash (idx.bandSlice mh band_idx)) with
      | none => cs
      | some ids => ids.foldl insertIfAbsent cs) []
  let scored ← candidates.mapM (fun d => do
    match dget idx.signatures d with
    | none => Except.error "KeyError"
    | some s => do
      let j ← mh.jaccard s
      pure (d, j))
  pure (sortBySimDesc (scored.filter (fun p => decide (threshold ≤ p.2))))

/-! ## `manifest.py`: manifest records

A JSONL manifest line either fails `json.loads`, or yields a JSON object
whose relevant fields may each be present or absent; `load_manifest_jsonl`
then validates it into a `TrainingSample` (pydantic requires `sample_id` and
`modality`; `text` is optional).  File I/O is out of scope: a manifest is
embedded as its list of lines. -/

/-- A validated training sample (the fields the engine consumes; the other
optional manifest fields default to `None` and are unused downstream). -/
structure TrainingSample where
  sample_id : String
  modality : String
  text : Option String
deriving DecidableEq

/-- One line of a JSONL manifest, as seen by `json.loads`. -/
inductive ManifestLine where
  | badJson
  | obj (sample_id : Option String) (modality : Option String) (text : Option String)
deriving DecidableEq

/-- `json.loads` plus `TrainingSample.model_validate`: unparseable JSON and a
missing required field both raise. -/
def parseManifestLine : ManifestLine → Except String TrainingSample
  | ManifestLine.badJson => Except.error "JSONDecodeError"
  | ManifestLine.obj sid modality text =>
    match sid, modality with
    | some s, some m => Except.ok ⟨s, m, text⟩
    | _, _ => Except.error "ValidationError"

/-- `load_manifest_jsonl`: validate every line; the first exception aborts
the whole load. -/
def load_manifest_jsonl (lines : List ManifestLine) : Except String (List TrainingSample) :=
  lines.mapM parseManifestLine

/-! ## `scanner.py`: index build and benchmark scan -/

/-- `build_training_index`, from a given index state: insert every sample
with non-empty text (`sample.text or ""`); a record that fails to parse
raises out of the generator and aborts the build. -/
def buildFrom (idx : TextFingerprintIndex) : List ManifestLine → Except String TextFingerprintIndex
  | [] => Except.ok idx
  | line :: rest =>
    match parseManifestLine line with
    | Except.error e => Except.error e
    | Except.ok s =>
      let t := s.text.getD ""
      buildFrom (if t ≠ "" then idx.add s.sample_id t else idx) rest

/-- `build_training_index(manifest_path)`: build a fresh fingerprint index
from the manifest's lines. -/
def build_training_index (lines : List ManifestLine) : Except String TextFingerprintIndex :=
  buildFrom TextFingerprintIndex.empty lines

/-- A benchmark example as the scanner sees it: the `example_id` value, the
`inputs` sub-dictionary and the example's own top-level fields
(string-valued; a missing key is an absent association). -/
structure BenchExample where
  example_id : String
  inputs : List (String × String)
  fields : List (String × String)
deriving DecidableEq

/-- `example.get("inputs", {}).get(text_field, "")`, falling back to
`example.get(text_field, "")` when the first lookup is falsy. -/
def extractText (ex : BenchExample) (text_field : String) : String :=
  let t := (dget ex.inputs text_field).getD ""
  if t = "" then (dget ex.fields text_field).getD "" else t

/-- The classification of one example inside the scan loop, with the data the
matching branch appends to its detail list. -/
inductive ScanStep where
  | exact (matched : List String)
  | near (results : List (String × ℚ))
  | clean
deriving DecidableEq

/-- The body of the scan loop for one example: try `find_exact`; on a miss
try `find_near`; otherwise clean. -/
def scanExample (idx : TextFingerprintIndex) (text_field : String) (threshold : ℚ)
    (ex : BenchExample) : ScanStep :=
  let text := extractText ex text_field
  match (idx.find_exact text).1 with
  | [] =>
    match (idx.find_near text threshold).1 with
    | [] => ScanStep.clean
    | n :: ns => ScanStep.near (n :: ns)
  | e :: es => ScanStep.exact (e :: es)

/-- An entry of `exact_match_details`. -/
structure ExactDetail where
  example_id : String
  matched_samples : List String
deriving DecidableEq

/-- An entry of `near_match_details`: the first five matched sample ids and
the best similarity. -/
structure NearDetail where
  example_id : String
  matched_samples : List String
  similarity : ℚ
deriving DecidableEq

/-- The scan loop: distribute the examples, in order, over the exact-match,
near-match and clean lists. -/
def scanLists (idx : TextFingerprintIndex) (text_field : String) (threshold : ℚ) :
    List BenchExample → List ExactDetail × List NearDetail × List String
  | [] => ([], [], [])
  | ex :: rest =>
    let r := scanLists idx text_field threshold rest
    match scanExample idx text_field threshold ex with
    | ScanStep.exact ms => (⟨ex.example_id, ms⟩ :: r.1, r.2.1, r.2.2)
    | ScanStep.near ns =>
      (r.1, ⟨ex.example_id, (ns.take 5).map Prod.fst, (ns.headD ("", 0)).2⟩ :: r.2.1, r.2.2)
    | ScanStep.clean => (r.1, r.2.1, ex.example_id :: r.2.2)

/-- The contamination report assembled by `scan_benchmark`. -/
structure Report where
  total_examples : Nat
  exact_matches : Nat
  near_matches : Nat
  clean : Nat
  contamination_rate : ℚ
  exact_match_details : List ExactDetail
  near_match_details : List NearDetail
deriving DecidableEq

/-- `scan_benchmark(benchmark_examples, index, text_field, threshold)`. -/
def scan_benchmark (benchmark_examples : List BenchExample) (idx : TextFingerprintIndex)
    (text_field : String) (threshold : ℚ) : Report :=
  let r := scanLists idx text_field threshold benchmark_examples
  { total_examples := benchmark_examples.length
    exact_matches := r.1.length
    near_matches := r.2.1.length
    clean := r.2.2.length
    contamination_rate :=
      if benchmark_examples.isEmpty then 0
      else ((r.1.length : ℚ) + (r.2.1.length : ℚ)) / (benchmark_examples.length : ℚ)
    exact_match_details := r.1
    near_match_details := r.2.1.take 100 }

/-! ## The Scan phase as the specification describes it

The spec's Scan phase ("Otherwise compute MinHash and call
`query(threshold)`; if any candidate passes, classify as `near` with the best
candidate's similarity; else classify as `clean`") routes the near-duplicate
check through the MinHash/LSH pair.  The following definition follows those
words, to be compared against the code's `scan_benchmark` above, which routes
it through `TextFingerprintIndex.find_near` instead. -/

/-- The spec's classification of one example. -/
inductive SpecClass where
  | exact
  | near (similarity : ℚ)
  | clean
deriving DecidableEq

/-- The Scan phase of the claim, following the specification's words: on an
exact miss, compute the MinHash signature of the example text and query the
LSH index with the configured threshold; classify `near` with the best
candidate's similarity if any candidate passes, else `clean`. -/
def specScanExample (idx : TextFingerprintIndex) (lsh : LSHIndex) (num_hashes : Nat)
    (ex : BenchExample) (text_field : String) (threshold : ℚ) : SpecClass :=
  let text := extractText ex text_field
  match (idx.find_exact text).1 with
  | _ :: _ => SpecClass.exact
  | [] =>
    match lsh.query (MinHash.compute num_hashes text 5) threshold with
    | Except.ok (c :: _) => SpecClass.near c.2
    | _ => SpecClass.clean

/-! ## Helper lemmas -/

/-- `getD` on a replicated list of empty buckets is always the empty bucket. -/
theorem getD_replicate_nil (b i : Nat) :
    (List.replicate b ([] : List (Nat × List String))).getD i [] = [] := by
  induction b generalizing i with
  | zero => simp [List.getD]
  | succ n ih =>
    cases i with
    | zero => rfl
    | succ j => simp [List.replicate, List.getD, ih j]

/-- Appending into a bucket makes the bucket contain the appended value. -/
theorem dget_dsetAppend_self {κ β : Type} [DecidableEq κ] (m : List (κ × List β)) (k : κ)
    (v : β) : dget (dsetAppend m k v) k = some ((dget m k).getD [] ++ [v]) := by
  induction m with
  | nil => simp [dsetAppend, dget]
  | cons p rest ih =>
    by_cases h : p.1 = k
    · simp [dsetAppend, dget, h]
    · simp [dsetAppend, dget, h, ih]

/-- Every signature produced by `MinHash.compute` has the configured length. -/
theorem MinHash.compute_sig_length (H : Nat) (text : String) (k : Nat) :
    (MinHash.compute H text k).signature.length = H := by
  unfold MinHash.compute
  cases dedupList (shingleList text k) with
  | nil => simp
  | cons s ss => simp

/-- Zipping a list with itself makes every position agree. -/
theorem countP_zip_self (l : List Nat) :
    (l.zip l).countP (fun p => decide (p.1 = p.2)) = l.length := by
  induction l with
  | nil => rfl
  | cons a l ih => simp [List.countP_cons, ih]

/-! ## C3: LSH configuration validation -/

/-- C3 counterexample: with `(b, r, H) = (16, 8, 64)` we have `b*r > H`, yet
constructing the LSH index and adding a 64-value signature to it succeeds and
produces an ordinary index — nothing is rejected and no error is raised
(`LSHIndex.__init__` never sees `H` and contains no check; the repository
defines no `ConfigurationError`). -/
theorem lsh_init_accepts_oversized_config_cex :
    16 * 8 > 64 ∧
    ((LSHIndex.init 16 8).add "d1" (MinHash.compute 64 "aa bb" 5)).buckets.length = 16 ∧
    dget ((LSHIndex.init 16 8).add "d1" (MinHash.compute 64 "aa bb" 5)).signatures "d1" =
      some (MinHash.compute 64 "aa bb" 5) := by
  refine ⟨by decide, ?_, ?_⟩ <;> decide

/-- C3 amended: LSH index construction performs no `(b, r, H)` validation and
cannot fail: any `(b, r)` is stored as given, and adding a signature of any
length (also one with `b*r > H`) succeeds, filing the document into one
bucket per band (out-of-range band slices are silently short or empty). -/
theorem lsh_init_no_validation (b r H : Nat) (doc text : String) :
    ((LSHIndex.init b r).add doc (MinHash.compute H text 5)).num_bands = b ∧
    ((LSHIndex.init b r).add doc (MinHash.compute H text 5)).rows_per_band = r ∧
    ((LSHIndex.init b r).add doc (MinHash.compute H text 5)).buckets.length = b ∧
    dget ((LSHIndex.init b r).add doc (MinHash.compute H text 5)).signatures doc =
      some (MinHash.compute H text 5) ∧
    ∀ bkt ∈ ((LSHIndex.init b r).add doc (MinHash.compute H text 5)).buckets,
      ∃ key, bkt = [(key, [doc])] := by
  refine ⟨rfl, rfl, by simp [LSHIndex.add, LSHIndex.init],
    by simp [LSHIndex.add, LSHIndex.init, dset, dget], ?_⟩
  intro bkt hb
  simp only [LSHIndex.add, LSHIndex.init, List.mem_map] at hb
  obtain ⟨i, _, rfl⟩ := hb
  exact ⟨_, by rw [getD_replicate_nil]; rfl⟩

/-! ## C4: contamination-rate arithmetic -/

/-- C4: in every report produced by `scan_benchmark`, `contamination_rate`
equals `(exact_matches + near_matches) / total_examples`, and `0` when
`total_examples = 0`. -/
theorem contamination_rate_formula (exs : List BenchExample) (idx : TextFingerprintIndex)
    (field : String) (th : ℚ) :
    (scan_benchmark exs idx field th).contamination_rate =
      if (scan_benchmark exs idx field th).total_examples = 0 then 0
      else
        (((scan_benchmark exs idx field th).exact_matches : ℚ) +
            ((scan_benchmark exs idx field th).near_matches : ℚ)) /
          ((scan_benchmark exs idx field th).total_examples : ℚ) := by
  cases exs with
  | nil => simp [scan_benchmark]
  | cons e rest => simp [scan_benchmark]

/-! ## C5: exact index round-trip -/

/-- C5: after `add(sample_id, text)`, `find_exact(text)` contains
`sample_id`; and `find_exact` on a text whose canonical hash has no bucket in
the index returns the empty list. -/
theorem exact_index_roundtrip (idx : TextFingerprintIndex) (sid text t2 : String)
    (h : dget idx.exact (compute_text_hash t2 true) = none) :
    sid ∈ ((idx.add sid text).find_exact text).1 ∧ (idx.find_exact t2).1 = [] := by
  constructor
  · simp [TextFingerprintIndex.add, TextFingerprintIndex.find_exact, dget_dsetAppend_self]
  · simp [TextFingerprintIndex.find_exact, h]

/-- C5 witness: on the empty index, adding `("s1", "ab")` makes
`find_exact "ab"` contain `"s1"`, and `find_exact "cd"` on the empty index
(whose hash was never added) returns the empty list. -/
theorem exact_index_roundtrip_witness :
    dget TextFingerprintIndex.empty.exact (compute_text_hash "cd" true) = none ∧
    ("s1" ∈ ((TextFingerprintIndex.empty.add "s1" "ab").find_exact "ab").1 ∧
      (TextFingerprintIndex.empty.find_exact "cd").1 = []) :=
  ⟨rfl, exact_index_roundtrip TextFingerprintIndex.empty "s1" "ab" "cd" rfl⟩

/-! ## C6: shingling of short texts -/

/-- C6 counterexample: `"aa bb"` has two words (at least one, fewer than
`k = 5`), yet the MinHash shingle generator `_shingle` yields the empty set
for it, not a single-element set. -/
theorem minhash_shingle_empty_on_short_text_cex :
    (splitWords ("aa bb".data.map Char.toLower)).length = 2 ∧
    dedupList (shingleList "aa bb" 5) = [] := by
  constructor <;> decide

/-- C6 amended: for a text with at least one word but fewer than `k` words,
the n-gram hasher `compute_ngram_hashes` returns a single-element set
representing the whole text, but the shingle generator `_shingle` feeding
MinHash returns the empty set, and `MinHash.compute` then falls back to the
all-zeros sentinel signature. -/
theorem short_text_shingling (text : String) (k H : Nat)
    (h1 : 1 ≤ (splitWords (normalize_text text).data).length)
    (h2 : (splitWords (normalize_text text).data).length < k)
    (h3 : (splitWords (text.data.map Char.toLower)).length < k) :
    (compute_ngram_hashes text k true).length = 1 ∧
    shingleList text k = [] ∧
    (MinHash.compute H text k).signature = List.replicate H 0 := by
  have hsh : shingleList text k = [] := by
    have hz : (splitWords (text.data.map Char.toLower)).length + 1 - k = 0 :=
      Nat.sub_eq_zero_of_le (by omega)
    simp [shingleList, hz]
  refine ⟨?_, hsh, ?_⟩
  · unfold compute_ngram_hashes
    simp only [if_true]
    rw [if_pos h2]
    rfl
  · unfold MinHash.compute
    rw [hsh]
    rfl

/-- C6 witness: `"aa bb"` instantiates the amended claim with `k = 5`,
`H = 3`. -/
theorem short_text_shingling_witness :
    (1 ≤ (splitWords (normalize_text "aa bb").data).length ∧
      (splitWords (normalize_text "aa bb").data).length < 5 ∧
      (splitWords ("aa bb".data.map Char.toLower)).length < 5) ∧
    ((compute_ngram_hashes "aa bb" 5 true).length = 1 ∧
      shingleList "aa bb" 5 = [] ∧
      (MinHash.compute 3 "aa bb" 5).signature = List.replicate 3 0) :=
  ⟨⟨by decide, by decide, by decide⟩,
    short_text_shingling "aa bb" 5 3 (by decide) (by decide) (by decide)⟩

/-! ## C7: MinHash self-similarity -/

/-- C7: for every non-empty text and every positive configured number of
hash functions, the Jaccard estimate of a MinHash signature with itself is
exactly 1. -/
theorem minhash_self_similarity (x : String) (H : Nat) (hx : x ≠ "") (hH : 1 ≤ H) :
    MinHash.jaccard (MinHash.compute H x 5) (MinHash.compute H x 5) = Except.ok 1 := by
  have hlen := MinHash.compute_sig_length H x 5
  unfold MinHash.jaccard
  rw [if_neg (by simp), if_neg (by omega)]
  rw [countP_zip_self, hlen]
  have hne : (H : ℚ) ≠ 0 := by exact_mod_cast Nat.one_le_iff_ne_zero.mp hH
  rw [div_self hne]

/-- C7 witness: `x = "hi"`, `H = 3`. -/
theorem minhash_self_similarity_witness :
    ("hi" ≠ "" ∧ 1 ≤ 3) ∧
    MinHash.jaccard (MinHash.compute 3 "hi" 5) (MinHash.compute 3 "hi" 5) = Except.ok 1 :=
  ⟨⟨by decide, by decide⟩, minhash_self_similarity "hi" 3 (by decide) (by decide)⟩

/-! ## C8: malformed manifest records -/

/-- C8 counterexample: a manifest whose first record parses and whose second
line is unparseable JSON makes `build_training_index` abort with the
exception instead of skipping the bad line and proceeding with the sample
that parsed. -/
theorem malformed_manifest_aborts_build_cex :
    build_training_index
        [ManifestLine.obj (some "t1") (some "text") (some "hello world"),
          ManifestLine.badJson] =
      Except.error "JSONDecodeError" ∧
    build_training_index [ManifestLine.obj none (some "text") (some "hello world")] =
      Except.error "ValidationError" := by
  constructor <;> rfl

/-- `buildFrom` succeeds exactly when every line parses, regardless of the
index it starts from. -/
theorem buildFrom_ok_iff (lines : List ManifestLine) (idx : TextFingerprintIndex) :
    (buildFrom idx lines).isOk = true ↔
      ∀ l ∈ lines, (parseManifestLine l).isOk = true := by
  induction lines generalizing idx with
  | nil =>
    constructor
    · intro _ l hl
      cases hl
    · intro _
      rfl
  | cons line rest ih =>
    cases h : parseManifestLine line with
    | error e =>
      constructor
      · intro hok
        rw [show buildFrom idx (line :: rest) = Except.error e from by simp [buildFrom, h]] at hok
        cases hok
      · intro hall
        have h2 := hall line (by simp)
        rw [h] at h2
        cases h2
    | ok s =>
      simp only [buildFrom, h]
      rw [ih]
      constructor
      · intro hall l hl
        rcases List.mem_cons.mp hl with rfl | hl
        · rw [h]
          rfl
        · exact hall l hl
      · intro hall l hl
        exact hall l (List.mem_cons_of_mem _ hl)

/-- C8 amended: a malformed manifest record (unparseable JSON or a missing
required field) is not skipped: the exception propagates and the index build
aborts; the build succeeds exactly when every record parses.  No warning
count exists. -/
theorem build_index_ok_iff_all_parse (lines : List ManifestLine) :
    (build_training_index lines).isOk = true ↔
      ∀ l ∈ lines, (parseManifestLine l).isOk = true :=
  buildFrom_ok_iff lines TextFingerprintIndex.empty

/-! ## C9: queries never mutate the index -/

/-- C9: `find_exact` and `find_near` leave the index state unchanged: the
state each returns is the receiver itself, for every index state, query text
and threshold. -/
theorem queries_never_mutate_index (idx : TextFingerprintIndex) (text : String) (th : ℚ) :
    (idx.find_exact text).2 = idx ∧ (idx.find_near text th).2 = idx := by
  constructor
  · rfl
  · unfold TextFingerprintIndex.find_near
    by_cases hq : compute_ngram_hashes text 5 true = []
    · simp [hq]
    · simp [hq]

/-! ## C10: report counts partition the input -/

/-- The three scan lists distribute the examples: their lengths sum to the
number of examples. -/
theorem scanLists_length_sum (idx : TextFingerprintIndex) (field : String) (th : ℚ)
    (exs : List BenchExample) :
    (scanLists idx field th exs).1.length + (scanLists idx field th exs).2.1.length +
        (scanLists idx field th exs).2.2.length = exs.length := by
  induction exs with
  | nil => rfl
  | cons ex rest ih =>
    unfold scanLists
    cases scanExample idx field th ex <;> simp <;> omega

/-- C10: in every report produced by a scan, the exact, near and clean counts
sum to `total_examples`, and `total_examples` is the number of examples
scanned. -/
theorem scan_counts_partition (exs : List BenchExample) (idx : TextFingerprintIndex)
    (field : String) (th : ℚ) :
    (scan_benchmark exs idx field th).exact_matches +
          (scan_benchmark exs idx field th).near_matches +
          (scan_benchmark exs idx field th).clean =
        (scan_benchmark exs idx field th).total_examples ∧
      (scan_benchmark exs idx field th).total_examples = exs.length := by
  exact ⟨scanLists_length_sum idx field th exs, rfl⟩

/-! ## Sortedness of the similarity-ranked results -/

/-- Membership in an insertion step. -/
theorem mem_insertBySimDesc (p x : String × ℚ) (l : List (String × ℚ)) :
    x ∈ insertBySimDesc p l ↔ x = p ∨ x ∈ l := by
  induction l with
  | nil => simp [insertBySimDesc]
  | cons q qs ih =>
    unfold insertBySimDesc
    by_cases h : q.2 ≤ p.2
    · simp [h]
    · simp [h, ih]
      tauto

/-- Sorting preserves membership. -/
theorem mem_sortBySimDesc (x : String × ℚ) (l : List (String × ℚ)) :
    x ∈ sortBySimDesc l ↔ x ∈ l := by
  induction l with
  | nil => simp [sortBySimDesc]
  | cons q qs ih =>
    simp only [sortBySimDesc, List.foldr_cons] at *
    rw [mem_insertBySimDesc, ih, List.mem_cons]

/-- Insertion preserves descending sortedness. -/
theorem pairwise_insertBySimDesc (p : String × ℚ) (l : List (String × ℚ))
    (h : List.Pairwise (fun a b => b.2 ≤ a.2) l) :
    List.Pairwise (fun a b => b.2 ≤ a.2) (insertBySimDesc p l) := by
  induction l with
  | nil => simp [insertBySimDesc]
  | cons q qs ih =>
    rcases List.pairwise_cons.mp h with ⟨hq, hqs⟩
    unfold insertBySimDesc
    by_cases hle : q.2 ≤ p.2
    · rw [if_pos hle]
      refine List.pairwise_cons.mpr ⟨?_, h⟩
      intro b hb
      rcases List.mem_cons.mp hb with rfl | hb
      · exact hle
      · exact le_trans (hq b hb) hle
    · rw [if_neg hle]
      refine List.pairwise_cons.mpr ⟨?_, ih hqs⟩
      intro b hb
      rcases (mem_insertBySimDesc p b qs).mp hb with rfl | hb
      · exact le_of_lt (lt_of_not_le hle)
      · exact hq b hb

/-- The sort is sorted by descending similarity. -/
theorem pairwise_sortBySimDesc (l : List (String × ℚ)) :
    List.Pairwise (fun a b => b.2 ≤ a.2) (sortBySimDesc l) := by
  induction l with
  | nil => simp [sortBySimDesc]
  | cons q qs ih => exact pairwise_insertBySimDesc q (sortBySimDesc qs) ih

/-- `find_near` returns a list sorted by descending similarity. -/
theorem find_near_pairwise (idx : TextFingerprintIndex) (text : String) (th : ℚ) :
    List.Pairwise (fun a b => b.2 ≤ a.2) (idx.find_near text th).1 := by
  unfold TextFingerprintIndex.find_near
  by_cases hq : compute_ngram_hashes text 5 true = []
  · simp [hq]
  · simp only [hq, if_false]
    exact pairwise_sortBySimDesc _

/-- Every similarity reported by `find_near` is at least the threshold. -/
theorem find_near_mem_threshold (idx : TextFingerprintIndex) (text : String) (th : ℚ)
    (p : String × ℚ) (hp : p ∈ (idx.find_near text th).1) : th ≤ p.2 := by
  unfold TextFingerprintIndex.find_near at hp
  by_cases hq : compute_ngram_hashes text 5 true = []
  · simp [hq] at hp
  · simp only [hq, if_false] at hp
    rw [mem_sortBySimDesc] at hp
    obtain ⟨q, hmem, heq⟩ := List.mem_filterMap.mp hp
    by_cases hth : th ≤ (q.2 : ℚ) / ((compute_ngram_hashes text 5 true).length : ℚ)
    · rw [if_pos hth] at heq
      cases heq
      exact hth
    · rw [if_neg hth] at heq
      cases heq

set_option maxRecDepth 100000 in
/-- C1 counterexample: training data `[("t1", "cc dd")]`, benchmark example
text `"aa bb"` (no exact match), threshold `1/2`.  The scanner classifies the
example `clean`: its near check is `TextFingerprintIndex.find_near`, whose
n-gram sets are disjoint here.  Had it computed a MinHash signature of the
example text and queried the LSH index as the claim states, both two-word
texts would carry the all-zeros sentinel signature, collide in every band,
score Jaccard 1 and the example would be classified `near`. -/
theorem scan_near_check_not_lsh_cex :
    scanExample (TextFingerprintIndex.empty.add "t1" "cc dd") "question" (1 / 2)
        ⟨"e1", [("question", "aa bb")], []⟩ =
      ScanStep.clean ∧
    specScanExample (TextFingerprintIndex.empty.add "t1" "cc dd")
        ((LSHIndex.init 16 8).add "t1" (MinHash.compute 128 "cc dd" 5)) 128
        ⟨"e1", [("question", "aa bb")], []⟩ "question" (1 / 2) =
      SpecClass.near 1 := by
  constructor <;> with_unfolding_all decide

/-- C1 amended: in the Scan phase, for an example whose text has no exact
match, the near/clean decision is made by `TextFingerprintIndex.find_near`
(n-gram-overlap similarity), not by MinHash/LSH: if `find_near` returns any
candidate (all of whose similarities are at least the threshold), the example
is classified `near` with the best (first, maximal) candidate's similarity;
otherwise it is classified `clean`. -/
theorem scan_near_uses_ngram_find_near (idx : TextFingerprintIndex) (field : String)
    (th : ℚ) (ex : BenchExample)
    (hex : (idx.find_exact (extractText ex field)).1 = [])
    (hnear : (idx.find_near (extractText ex field) th).1 ≠ []) :
    (scan_benchmark [ex] idx field th).near_matches = 1 ∧
    (scan_benchmark [ex] idx field th).exact_matches = 0 ∧
    (scan_benchmark [ex] idx field th).clean = 0 ∧
    (scan_benchmark [ex] idx field th).near_match_details =
      [⟨ex.example_id, (((idx.find_near (extractText ex field) th).1).take 5).map Prod.fst,
        (((idx.find_near (extractText ex field) th).1).headD ("", 0)).2⟩] ∧
    (∀ p ∈ (idx.find_near (extractText ex field) th).1,
      p.2 ≤ (((idx.find_near (extractText ex field) th).1).headD ("", 0)).2) ∧
    th ≤ (((idx.find_near (extractText ex field) th).1).headD ("", 0)).2 := by
  obtain ⟨n, ns, hn⟩ : ∃ n ns, (idx.find_near (extractText ex field) th).1 = n :: ns := by
    cases h : (idx.find_near (extractText ex field) th).1 with
    | nil => exact absurd h hnear
    | cons a l => exact ⟨a, l, rfl⟩
  have hstep : scanExample idx field th ex = ScanStep.near (n :: ns) := by
    unfold scanExample
    simp only [hex, hn]
  have hmax : ∀ p ∈ (idx.find_near (extractText ex field) th).1, p.2 ≤ n.2 := by
    intro p hp
    rw [hn] at hp
    rcases List.mem_cons.mp hp with rfl | hp
    · exact le_refl _
    · have hpw := find_near_pairwise idx (extractText ex field) th
      rw [hn] at hpw
      exact (List.pairwise_cons.mp hpw).1 p hp
  refine ⟨?_, ?_, ?_, ?_, ?_, ?_⟩
  · simp [scan_benchmark, scanLists, hstep]
  · simp [scan_benchmark, scanLists, hstep]
  · simp [scan_benchmark, scanLists, hstep]
  · simp [scan_benchmark, scanLists, hstep, hn]
  · rw [hn]
    simpa [hn] using hmax
  · have := find_near_mem_threshold idx (extractText ex field) th n (by rw [hn]; simp)
    simpa [hn] using this

set_option maxRecDepth 100000 in
/-- C1 witness: training index over `[("t1", "a b c d e f")]`, example text
`"a b c d e"` (five-word overlap, no exact match), threshold `1/2`:
`find_near` yields the candidate and the scan classifies it `near` with the
best candidate's similarity. -/
theorem scan_near_uses_ngram_find_near_witness :
    (((TextFingerprintIndex.empty.add "t1" "a b c d e f").find_exact
          (extractText ⟨"e1", [("question", "a b c d e")], []⟩ "question")).1 = [] ∧
      ((TextFingerprintIndex.empty.add "t1" "a b c d e f").find_near
          (extractText ⟨"e1", [("question", "a b c d e")], []⟩ "question") (1 / 2)).1 ≠ []) ∧
    ((scan_benchmark [⟨"e1", [("question", "a b c d e")], []⟩]
          (TextFingerprintIndex.empty.add "t1" "a b c d e f") "question" (1 / 2)).near_matches = 1 ∧
      (scan_benchmark [⟨"e1", [("question", "a b c d e")], []⟩]
          (TextFingerprintIndex.empty.add "t1" "a b c d e f") "question" (1 / 2)).exact_matches = 0 ∧
      (scan_benchmark [⟨"e1", [("question", "a b c d e")], []⟩]
          (TextFingerprintIndex.empty.add "t1" "a b c d e f") "question" (1 / 2)).clean = 0 ∧
      (scan_benchmark [⟨"e1", [("question", "a b c d e")], []⟩]
          (TextFingerprintIndex.empty.add "t1" "a b c d e f") "question" (1 / 2)).near_match_details =
        [⟨(⟨"e1", [("question", "a b c d e")], []⟩ : BenchExample).example_id,
          ((((TextFingerprintIndex.empty.add "t1" "a b c d e f").find_near
                (extractText ⟨"e1", [("question", "a b c d e")], []⟩ "question") (1 / 2)).1).take 5).map
            Prod.fst,
          ((((TextFingerprintIndex.empty.add "t1" "a b c d e f").find_near
                (extractText ⟨"e1", [("question", "a b c d e")], []⟩ "question") (1 / 2)).1).headD
              ("", 0)).2⟩] ∧
      (∀ p ∈ ((TextFingerprintIndex.empty.add "t1" "a b c d e f").find_near
            (extractText ⟨"e1", [("question", "a b c d e")], []⟩ "question") (1 / 2)).1,
        p.2 ≤ ((((TextFingerprintIndex.empty.add "t1" "a b c d e f").find_near
              (extractText ⟨"e1", [("question", "a b c d e")], []⟩ "question") (1 / 2)).1).headD
            ("", 0)).2) ∧
      (1 / 2 : ℚ) ≤ ((((TextFingerprintIndex.empty.add "t1" "a b c d e f").find_near
            (extractText ⟨"e1", [("question", "a b c d e")], []⟩ "question") (1 / 2)).1).headD
          ("", 0)).2) :=
  ⟨⟨by with_unfolding_all decide, by with_unfolding_all decide⟩,
    scan_near_uses_ngram_find_near (TextFingerprintIndex.empty.add "t1" "a b c d e f")
      "question" (1 / 2) ⟨"e1", [("question", "a b c d e")], []⟩
      (by with_unfolding_all decide) (by with_unfolding_all decide)⟩

/-! ## C2: normalization idempotence -/

/-- C2 counterexample: removing the comma of `"a , b"` leaves two adjacent
spaces, which only a second normalization pass collapses, so
`normalize_text` is not idempotent. -/
theorem normalize_text_not_idempotent_cex :
    normalize_text "a , b" = "a  b" ∧
    normalize_text (normalize_text "a , b") = "a b" ∧
    normalize_text (normalize_text "a , b") ≠ normalize_text "a , b" := by
  refine ⟨?_, ?_, ?_⟩ <;> decide

/-- A valid code point below the surrogate range survives `Char.ofNat`. -/
theorem toNat_ofNat_small (n : Nat) (h : n < 55296) : (Char.ofNat n).toNat = n := by
  simp [Char.ofNat, Char.toNat]
  split
  case isTrue h2 => rfl
  case isFalse h2 => exact absurd (Or.inl (by omega)) h2

/-- `Char.toLower` is idempotent. -/
theorem toLower_idem (c : Char) : c.toLower.toLower = c.toLower := by
  unfold Char.toLower
  by_cases h : c.toNat ≥ 65 ∧ c.toNat ≤ 90
  · rw [if_pos h]
    have hv : (Char.ofNat (c.toNat + 32)).toNat = c.toNat + 32 :=
      toNat_ofNat_small _ (by omega)
    rw [if_neg (by omega)]
  · rw [if_neg h, if_neg h]

/-- Splitting a spaceless prefix accumulates it. -/
theorem splitWordsAux_append (w rest acc : List Char)
    (hw : ∀ c ∈ w, pyIsSpace c = false) :
    splitWordsAux (w ++ rest) acc = splitWordsAux rest (w.reverse ++ acc) := by
  induction w generalizing acc with
  | nil => simp
  | cons c cs ih =>
    have hc : pyIsSpace c = false := hw c (by simp)
    simp only [List.cons_append, splitWordsAux, hc, Bool.false_eq_true, if_false, List.append_eq]
    rw [ih _ (fun d hd => hw d (by simp [hd]))]
    simp

/-- Splitting at a space flushes the accumulator. -/
theorem splitWordsAux_space (rest acc : List Char) (hacc : acc ≠ []) :
    splitWordsAux (' ' :: rest) acc = acc.reverse :: splitWordsAux rest [] := by
  have he : acc.isEmpty = false := by
    cases acc with
    | nil => exact absurd rfl hacc
    | cons a l => rfl
  simp [splitWordsAux, pyIsSpace, he]

/-- Splitting is a left inverse of joining for lists of nonempty spaceless
words. -/
theorem splitWords_joinSpace (ws : List (List Char))
    (h : ∀ w ∈ ws, w ≠ [] ∧ ∀ c ∈ w, pyIsSpace c = false) :
    splitWords (joinSpace ws) = ws := by
  induction ws with
  | nil => rfl
  | cons w vs ih =>
    obtain ⟨hne, hns⟩ := h w (by simp)
    cases vs with
    | nil =>
      show splitWordsAux (joinSpace [w]) [] = [w]
      have : joinSpace [w] = w ++ [] := by simp [joinSpace]
      rw [this, splitWordsAux_append w [] [] hns]
      have hrev : (w.reverse ++ []).isEmpty = false := by
        simp [List.isEmpty_iff, hne]
      simp [splitWordsAux, hrev]
      exact hne
    | cons v vs2 =>
      show splitWordsAux (joinSpace (w :: v :: vs2)) [] = w :: v :: vs2
      have hj : joinSpace (w :: v :: vs2) = w ++ ' ' :: joinSpace (v :: vs2) := rfl
      rw [hj, splitWordsAux_append w _ [] hns,
        splitWordsAux_space _ _ (by simp [hne])]
      simp only [List.append_nil, List.reverse_reverse]
      exact congrArg (List.cons w) (ih (fun u hu => h u (by simp [hu])))

/-- Every word produced by the splitter is nonempty, spaceless, and drawn
from the input (or the accumulator). -/
theorem splitWordsAux_spec (l : List Char) :
    ∀ acc, (∀ c ∈ acc, pyIsSpace c = false) →
      ∀ w ∈ splitWordsAux l acc,
        w ≠ [] ∧ ∀ c ∈ w, (c ∈ l ∨ c ∈ acc) ∧ pyIsSpace c = false := by
  induction l with
  | nil =>
    intro acc hacc w hw
    cases hacc2 : acc.isEmpty with
    | true => simp [splitWordsAux, hacc2] at hw
    | false =>
      simp only [splitWordsAux, hacc2, Bool.false_eq_true, if_false] at hw
      rw [List.mem_singleton] at hw
      subst hw
      refine ⟨by simpa [List.isEmpty_iff] using hacc2, ?_⟩
      intro c hc
      rw [List.mem_reverse] at hc
      exact ⟨Or.inr hc, hacc c hc⟩
  | cons a as ih =>
    intro acc hacc w hw
    by_cases ha : pyIsSpace a = true
    · simp only [splitWordsAux, ha, if_true] at hw
      cases hacc2 : acc.isEmpty with
      | true =>
        rw [if_pos hacc2] at hw
        obtain ⟨hne, hmem⟩ := ih [] (by simp) w hw
        exact ⟨hne, fun c hc =>
          ⟨Or.inl (List.mem_cons_of_mem a ((hmem c hc).1.resolve_right (by simp))),
            (hmem c hc).2⟩⟩
      | false =>
        rw [hacc2] at hw
        simp only [Bool.false_eq_true, if_false, List.mem_cons] at hw
        rcases hw with rfl | hw
        · refine ⟨by simpa [List.isEmpty_iff] using hacc2, ?_⟩
          intro c hc
          rw [List.mem_reverse] at hc
          exact ⟨Or.inr hc, hacc c hc⟩
        · obtain ⟨hne, hmem⟩ := ih [] (by simp) w hw
          exact ⟨hne, fun c hc =>
            ⟨Or.inl (List.mem_cons_of_mem a ((hmem c hc).1.resolve_right (by simp))),
              (hmem c hc).2⟩⟩
    · have ha' : pyIsSpace a = false := by
        cases h2 : pyIsSpace a with
        | true => exact absurd h2 ha
        | false => rfl
      simp only [splitWordsAux, ha', Bool.false_eq_true, if_false] at hw
      obtain ⟨hne, hmem⟩ := ih (a :: acc)
        (fun c hc => by
          rcases List.mem_cons.mp hc with rfl | hc
          · exact ha'
          · exact hacc c hc) w hw
      refine ⟨hne, fun c hc => ⟨?_, (hmem c hc).2⟩⟩
      rcases (hmem c hc).1 with h1 | h1
      · exact Or.inl (List.mem_cons_of_mem a h1)
      · rcases List.mem_cons.mp h1 with rfl | h1
        · exact Or.inl (by simp)
        · exact Or.inr h1

/-- A character of a joined word list is a space or lies in one of the
words. -/
theorem mem_joinSpace (ws : List (List Char)) (c : Char) (hc : c ∈ joinSpace ws) :
    (∃ w ∈ ws, c ∈ w) ∨ c = ' ' := by
  induction ws with
  | nil => cases hc
  | cons w vs ih =>
    cases vs with
    | nil => exact Or.inl ⟨w, by simp, hc⟩
    | cons v vs2 =>
      rw [show joinSpace (w :: v :: vs2) = w ++ ' ' :: joinSpace (v :: vs2) from rfl,
        List.mem_append] at hc
      rcases hc with hc | hc
      · exact Or.inl ⟨w, by simp, hc⟩
      · rcases List.mem_cons.mp hc with rfl | hc
        · exact Or.inr rfl
        · rcases ih hc with ⟨u, hu, hcu⟩ | rfl
          · exact Or.inl ⟨u, List.mem_cons_of_mem w hu, hcu⟩
          · exact Or.inr rfl

/-- A character of `collapseStrip l` is a space or a character of `l`. -/
theorem mem_collapseStrip (l : List Char) (c : Char) (hc : c ∈ collapseStrip l) :
    c ∈ l ∨ c = ' ' := by
  rcases mem_joinSpace _ _ hc with ⟨w, hw, hcw⟩ | rfl
  · have := (splitWordsAux_spec l [] (by simp) w hw).2 c hcw
    exact Or.inl (this.1.resolve_right (by simp))
  · exact Or.inr rfl

/-- Collapsing is idempotent: the words of a joined word list are the words
themselves. -/
theorem collapseStrip_idem (l : List Char) :
    collapseStrip (collapseStrip l) = collapseStrip l := by
  unfold collapseStrip
  rw [splitWords_joinSpace]
  intro w hw
  obtain ⟨hne, hmem⟩ := splitWordsAux_spec l [] (by simp) w hw
  exact ⟨hne, fun c hc => (hmem c hc).2⟩

/-- Mapping `toLower` over its own image is the identity. -/
theorem map_toLower_eq_self (l : List Char) (h : ∀ c ∈ l, c.toLower = c) :
    l.map Char.toLower = l := by
  induction l with
  | nil => rfl
  | cons a as ih =>
    rw [List.map_cons, h a (by simp), ih (fun c hc => h c (List.mem_cons_of_mem a hc))]

/-- A filter that every element passes is the identity. -/
theorem filter_pass_eq_self (l : List Char) (p : Char → Bool) (h : ∀ c ∈ l, p c = true) :
    l.filter p = l := by
  induction l with
  | nil => rfl
  | cons a as ih =>
    rw [List.filter_cons_of_pos (h a (by simp)),
      ih (fun c hc => h c (List.mem_cons_of_mem a hc))]

/-- Normalizing a lowercase, punctuation-free character list only collapses
its whitespace. -/
theorem normalize_fix_step (Y : List Char)
    (hlow : ∀ c ∈ Y, c.toLower = c)
    (hpass : ∀ c ∈ Y, (isWordChar c || pyIsSpace c) = true) :
    normalize_text (String.mk Y) = String.mk (collapseStrip Y) := by
  unfold normalize_text
  have hdata : (String.mk Y).data = Y := rfl
  rw [hdata, map_toLower_eq_self Y hlow]
  unfold stripPunct
  rw [filter_pass_eq_self]
  intro c hc
  rcases mem_collapseStrip Y c hc with hc2 | rfl
  · exact hpass c hc2
  · decide

/-- C2 amended: `normalize_text` is not idempotent (see the counterexample:
punctuation removal can leave adjacent spaces), but a second application is a
fixed point: for every string, `normalize ∘ normalize` is idempotent, and a
third application never changes the result of the second. -/
theorem normalize_text_twice_idempotent (s : String) :
    normalize_text (normalize_text (normalize_text s)) =
      normalize_text (normalize_text s) := by
  have hlowY : ∀ c ∈ stripPunct (collapseStrip (s.data.map Char.toLower)), c.toLower = c := by
    intro c hc
    have hc2 := List.mem_of_mem_filter hc
    rcases mem_collapseStrip _ c hc2 with hc3 | rfl
    · obtain ⟨d, _, rfl⟩ := List.mem_map.mp hc3
      exact toLower_idem d
    · decide
  have hpassY : ∀ c ∈ stripPunct (collapseStrip (s.data.map Char.toLower)),
      (isWordChar c || pyIsSpace c) = true := by
    intro c hc
    have hc2 : c ∈ List.filter (fun d => isWordChar d || pyIsSpace d)
        (collapseStrip (s.data.map Char.toLower)) := hc
    exact (List.mem_filter.mp hc2).2
  have h2 : normalize_text (normalize_text s) =
      String.mk (collapseStrip (stripPunct (collapseStrip (s.data.map Char.toLower)))) :=
    normalize_fix_step _ hlowY hpassY
  have hlowZ : ∀ c ∈ collapseStrip (stripPunct (collapseStrip (s.data.map Char.toLower))),
      c.toLower = c := by
    intro c hc
    rcases mem_collapseStrip _ c hc with hc2 | rfl
    · exact hlowY c hc2
    · decide
  have hpassZ : ∀ c ∈ collapseStrip (stripPunct (collapseStrip (s.data.map Char.toLower))),
      (isWordChar c || pyIsSpace c) = true := by
    intro c hc
    rcases mem_collapseStrip _ c hc with hc2 | rfl
    · exact hpassY c hc2
    · decide
  rw [h2, normalize_fix_step _ hlowZ hpassZ, collapseStrip_idem]
